import Mathlib

set_option maxRecDepth 100000

/-!
Shallow embedding of the z80ctrl monitor command-line interface (`src/cli.c`)
and a verification of the specified properties of its memory-transfer,
debug-range, baud-search, command-file and poke commands.

Machine integers are modelled as `Nat` with explicit `% 65536` (for the
16-bit address space and `uint16_t` arithmetic) and `% 256` (for bytes)
exactly where the C performs 16-bit unsigned arithmetic.  Loops are
modelled by structural recursion on an explicit fuel counter returning
`Option` (`none` = the loop has not finished within the given budget), so
that every definition is executable and a loop that never finishes is the
statement that every fuel budget yields `none`.
-/

/-- The two memory targets a transfer command can address: the external
bus memory (`write_mem` / `read_mem`) and the TMS9918A video memory
(`tms_write` / `tms_read`). -/
inductive Target
  | bus
  | video
deriving DecidableEq, Repr

/-! ### `cli_fill` (src/cli.c lines 486-522)

The fill command builds a 256-byte pattern buffer and then tiles it over
`[start, end]`.  We record the trace of write calls it issues as a list of
`(target, address, length)` triples.  `uint16_t` subtraction `end - start`
is `(e + 65536 - s) % 65536`.  The chunk loop (lines 508-521) is:

    for (;;) {
        if (end - start > 256) {
            if (tms) tms_write(start, buf, 256);
            else write_mem(start, buf, 256);
            start += 256;
        } else {
            if (tms)
                tms_write(start, buf, end - start + 1);
                write_mem(start, buf, end - start + 1);   // unguarded!
            break;
        }
    }

Note that in the final chunk the `write_mem` call is NOT part of the
`if (tms)` statement (there are no braces): it executes unconditionally,
after `tms_write` in the video case. -/

/-- Target selected for a non-final chunk: exactly one of the two. -/
def fillTarget (tms : Bool) : Target :=
  if tms then Target.video else Target.bus

/-- Write calls issued for the final chunk (length `len`): in the video
case the unguarded `write_mem` runs as well, so two writes are issued. -/
def fillFinal (tms : Bool) (s len : Nat) : List (Target × Nat × Nat) :=
  if tms then [(Target.video, s, len), (Target.bus, s, len)]
  else [(Target.bus, s, len)]

/-- The trace of write calls issued by the chunk loop of `cli_fill`,
given a fuel budget for the loop.  `s`, `e` are the current start and the
end address, both already masked to 16 bits by the argument parsing. -/
def fillChunksF : Nat → Bool → Nat → Nat → Option (List (Target × Nat × Nat))
  | 0, _, _, _ => none
  | fuel + 1, tms, s, e =>
    if (e + 65536 - s) % 65536 > 256 then
      (fillChunksF fuel tms ((s + 256) % 65536) e).map
        (fun rest => (fillTarget tms, s, 256) :: rest)
    else
      some (fillFinal tms s ((e + 65536 - s) % 65536 + 1))

/-- Total number of bytes a trace of write calls delivers to one target. -/
def chunkBytesTo (t : Target) (l : List (Target × Nat × Nat)) : Nat :=
  ((l.filter (fun c => c.1 == t)).map (fun c => c.2.2)).sum

/-! ### `cli_savebin` (src/cli.c lines 196-226)

    uint16_t len = 256;
    while (start <= end) {
        if (end - start + 1 < len)
            len = end - start + 1;
        read_mem(start, buf, len);
        if ((fr = f_write(&fil, buf, len, &bw)) != FR_OK) { ...; break; }
        start += len;
    }

All arithmetic is 16-bit unsigned; under the guard `start <= end` the
value `end - start + 1` is `(e - s + 1) % 65536` (which is `0` exactly
when `s = 0, e = 65535`).  We model the success path of `f_write` (a
write failure would `break` out of the loop) and record the trace of
`(address, length)` write calls. -/
def savebinF : Nat → Nat → Nat → Nat → Option (List (Nat × Nat))
  | 0, _, _, _ => none
  | fuel + 1, s, e, len =>
    if s ≤ e then
      let len' := if (e - s + 1) % 65536 < len then (e - s + 1) % 65536 else len
      match savebinF fuel ((s + len') % 65536) e len' with
      | some rest => some ((s, len') :: rest)
      | none => none
    else
      some []

/-! ### `verify_mem` (src/cli.c lines 461-481)

    int verify_mem(uint16_t start, uint16_t end, uint8_t *src, uint8_t log)
    {
        uint8_t buf[256];
        int errors = 0;
        uint16_t j = 0, buflen = 256;
        uint32_t i = start;
        while (i <= end) {
            if (end - i + 1 < buflen)
                buflen = end - i + 1;
            read_mem(start, buf, buflen);          // note: start, not i
            for (j = 0; j < buflen; i++, j++) {
                if (buf[j] != src[i]) {
                    if (log) printf_P(..., start+i, src[i], buf[j]);
                    errors++;
                }
            }
        }
        return errors;
    }

`mem` is the target memory (`read_mem` wraps addresses to 16 bits) and
`src` the reference buffer, indexed by the 32-bit counter `i`.  The read
in each outer iteration uses the original `start`, never `i`. -/

/-- Number of mismatches in one chunk: compares `buf[j] = mem[(start+j) % 2^16]`
(the chunk actually read, always from `start`) against `src[i+j]`. -/
def countMismatch (mem src : Nat → Nat) (start i n : Nat) : Nat :=
  (List.range n).countP (fun j => mem ((start + j) % 65536) != src (i + j))

/-- The outer loop of `verify_mem`: `start` is the (never advanced) read
address, `i` the comparison counter, `buflen` the current chunk size. -/
def verifyLoopF : Nat → (Nat → Nat) → (Nat → Nat) → Nat → Nat → Nat → Nat → Option Nat
  | 0, _, _, _, _, _, _ => none
  | fuel + 1, mem, src, start, i, e, buflen =>
    if i ≤ e then
      let buflen' := if e - i + 1 < buflen then e - i + 1 else buflen
      match verifyLoopF fuel mem src start (i + buflen') e buflen' with
      | some rest => some (countMismatch mem src start i buflen' + rest)
      | none => none
    else
      some 0

/-- `verify_mem(start, end, src, log)` over target contents `mem`:
the error count it returns (the log does not affect the count). -/
def verify_mem (fuel : Nat) (mem src : Nat → Nat) (s e : Nat) : Option Nat :=
  verifyLoopF fuel mem src s s e 256

/-- Target memory used as a counterexample: byte at address `a` is the
high byte of `a` (0 on the first 256-byte page, 1 on the second, ...). -/
def pageByte : Nat → Nat := fun a => a / 256 % 256

/-- Reference buffer with exactly the same contents as `pageByte`. -/
def pageByteRef : Nat → Nat := fun a => a / 256 % 256

/-! ### `cli_breakwatch` (src/cli.c lines 354-414)

The command works on one of two registries (`breaks` or `watches`), each a
fixed-size array of `range {uint16_t start, end}` indexed by a debug class.
We model a registry as a `List DebugRange` (its length plays the role of
`DEBUGCNT`) and each syntactic form of the command as one operation:

  * `break`                 — status display only, no mutation (lines 365-377)
  * `break off`             — every class set to the sentinel (lines 378-384)
  * `break <type>`          — that class set to `[0, 0xffff]` (lines 394-397)
  * `break <type> off`      — that class set to the sentinel (lines 399-401)
  * `break <type> <s>`      — start and end both set to `s` (lines 404-410)
  * `break <type> <s> <e>`  — start set to `s`, end to `e` (lines 404-407)

An unknown type name is reported and changes nothing (lines 390-393); we
model name resolution by requiring the class index to be in bounds.
`strtoul` results are stored into `uint16_t` fields, hence `% 65536`. -/

/-- A breakpoint/watchpoint range: `start` and `end` (named `stop` here
because `end` is reserved in Lean). -/
structure DebugRange where
  start : Nat
  stop : Nat
deriving DecidableEq, Repr

/-- The disabled sentinel `start = 0xffff, end = 0` (lines 381-382). -/
def rangeOff : DebugRange := ⟨0xffff, 0⟩

/-- One invocation of the break/watch command, by syntactic form. -/
inductive BWOp
  | status
  | offAll
  | setFull (t : Nat)
  | offOne (t : Nat)
  | setOne (t s : Nat)
  | setRange (t s e : Nat)
deriving DecidableEq, Repr

/-- Effect of one break/watch invocation on a registry. -/
def applyOp (reg : List DebugRange) : BWOp → List DebugRange
  | BWOp.status => reg
  | BWOp.offAll => reg.map (fun _ => rangeOff)
  | BWOp.setFull t => if t < reg.length then reg.set t ⟨0, 0xffff⟩ else reg
  | BWOp.offOne t => if t < reg.length then reg.set t rangeOff else reg
  | BWOp.setOne t s =>
      if t < reg.length then reg.set t ⟨s % 65536, s % 65536⟩ else reg
  | BWOp.setRange t s e =>
      if t < reg.length then reg.set t ⟨s % 65536, e % 65536⟩ else reg

/-- Effect of a sequence of break/watch invocations. -/
def applyOps (reg : List DebugRange) (ops : List BWOp) : List DebugRange :=
  ops.foldl applyOp reg

/-- The claimed registry invariant: a range is an enabled range with
`start <= end`, or it is exactly the disabled sentinel. -/
def rangeInvB (r : DebugRange) : Bool :=
  decide (r.start ≤ r.stop) || (decide (r.start = 0xffff) && decide (r.stop = 0))

/-- An invocation supplies a well-ordered range: only the explicit
two-address form can supply `start > end`. -/
def opOkB : BWOp → Bool
  | BWOp.setRange _ s e => decide (s % 65536 ≤ e % 65536)
  | _ => true

/-! ### `cli_baud` (src/cli.c lines 678-700)

    uint16_t ubrr = 0;
    uint32_t actual = 0;
    for (;;) {
        actual = (uint32_t)F_CPU / ((uint32_t)16 * ((uint32_t)ubrr + (uint32_t)1));
        if (actual <= requested)
            break;
        ubrr++;
        if (ubrr == 0)        // stop if we have maxed out UBRR
            break;
    }

`F_CPU` is 20000000 (the Makefile sets `F_CPU=20000000L`).  `ubrr` is a
16-bit register value, so the increment wraps at 65536; on that wrap the
loop stops with `ubrr = 0` while `actual` still holds the rate computed
for `ubrr = 0xffff`.  The result is the pair reported by the `printf`
(`actual`) together with the divisor handed to `uart_init` (`ubrr`). -/
def baudLoopF : Nat → Nat → Nat → Nat → Option (Nat × Nat)
  | 0, _, _, _ => none
  | fuel + 1, clock, requested, ubrr =>
    if clock / (16 * (ubrr + 1)) ≤ requested then
      some (ubrr, clock / (16 * (ubrr + 1)))
    else if (ubrr + 1) % 65536 = 0 then
      some ((ubrr + 1) % 65536, clock / (16 * (ubrr + 1)))
    else baudLoopF fuel clock requested (ubrr + 1)

/-- The divisor/actual-rate pair chosen by `cli_baud` for a requested
rate, with the 20 MHz clock of this board. -/
def cli_baud (requested : Nat) : Option (Nat × Nat) :=
  baudLoopF 65536 20000000 requested 0

/-! ### `cli_exec` and `cli_do` (src/cli.c lines 720-752, 977)

    if ((fr = f_open(&fil, filename, FA_READ)) == FR_OK) { ... } else {
        // don't show a file not found error for autoexec.bat
        if (fr != FR_NO_FILE || strcmp_P(filename, PSTR(AUTOEXEC)) != 0)
            printf_P(PSTR("error opening file: %S\n"), ...);
    }

`cli_do` (the user's `do <file>` command) simply calls `cli_exec(argv[1])`
after an argument-count check; `main` calls `cli_exec(AUTOEXEC)` once at
start-up.  The filesystem result codes come from the external FatFs
collaborator; the code only distinguishes `FR_OK` and `FR_NO_FILE`, so we
model the codes by those two plus an opaque numbered remainder. -/

/-- FatFs result codes as distinguished by `cli.c`. -/
inductive FResult
  | ok
  | noFile
  | otherErr (code : Nat)
deriving DecidableEq, Repr

/-- The distinguished bootstrap file name (line 715). -/
def AUTOEXEC : String := "autoexec.z8c"

/-- Whether `cli_exec` reports an open failure `fr` for `filename`
(line 737): it stays silent exactly when the failure is "no file" and the
name is the bootstrap name, regardless of who asked for the file. -/
def execReportsOpenError (filename : String) (fr : FResult) : Bool :=
  !(decide (fr = FResult.noFile) && decide (filename = AUTOEXEC))

/-- Whether the `do` command reports an open failure `fr`, given its
argument vector: with fewer than two tokens it prints a usage message and
never opens a file; otherwise it hands `argv[1]` to `cli_exec`, whose
reporting rule applies unchanged. -/
def doReportsOpenError (args : List String) (fr : FResult) : Bool :=
  match args with
  | _ :: f :: _ => execReportsOpenError f fr
  | _ => false

/-! ### `cli_poke` (src/cli.c lines 527-560)

    void cli_poke(int argc, char *argv[])
    {
        uint8_t value;
        if (argc < 2)
            printf_P(PSTR("usage: poke <start> [value]\n"));   // no return!
        uint16_t addr = strtoul(argv[1], NULL, 16) & 0xffff;
        if (argc == 3) { value = ...; write_mem(addr, &value, 1); return; }
        printf_P(PSTR("enter valid hex to replace; ...\n"));
        for (;;) {
            read_mem(addr, &value, 1);
            printf_P(PSTR("%04X=%02X : "), addr, value);
            if (fgets(buf, ..., stdin) == NULL) break;
            ... blank line -> addr++, continue;
            ... no hex digits -> break;
            ... hex value    -> write_mem(addr, &value, 1); addr++;
        }
    }

The usage branch for `argc < 2` is not followed by a `return`, so the
handler falls through, parses the missing `argv[1]` (a null pointer —
`addrArg` models whatever value that undefined parse yields) and enters
the interactive loop, whose first action reads memory.  We model the
observable trace of the handler.  Each console line is represented by its
parse outcome (blank / valid hex / no hex digits), mirroring the
`strtoul(buf, &end, 16)` classification. -/

/-- Parse outcome of one interactive console line. -/
inductive PokeInput
  | blank
  | hexVal (v : Nat)
  | nonHex
deriving DecidableEq, Repr

/-- Observable events of the poke handler. -/
inductive PokeEvent
  | printUsage
  | readMem (a : Nat)
  | writeMem (a v : Nat)
deriving DecidableEq, Repr

/-- The interactive loop (lines 539-558): reads and shows the byte at
`addr`, then acts on the next console line; end of input breaks out. -/
def pokeLoop (addr : Nat) : List PokeInput → List PokeEvent
  | [] => [PokeEvent.readMem (addr % 65536)]
  | line :: rest =>
    PokeEvent.readMem (addr % 65536) ::
      match line with
      | PokeInput.blank => pokeLoop (addr + 1) rest
      | PokeInput.nonHex => []
      | PokeInput.hexVal v =>
          PokeEvent.writeMem (addr % 65536) (v % 256) :: pokeLoop (addr + 1) rest

/-- The observable trace of `cli_poke`: `argc` as delivered by the
dispatcher, `addrArg`/`valArg` the values `strtoul` yields for
`argv[1]`/`argv[2]` (for `argc < 2`, `argv[1]` is a null pointer and
`addrArg` stands for the unspecified result of parsing it), and `stdin`
the console lines available to the interactive loop. -/
def cli_poke (argc addrArg valArg : Nat) (stdin : List PokeInput) : List PokeEvent :=
  (if argc < 2 then [PokeEvent.printUsage] else []) ++
    (if argc = 3 then [PokeEvent.writeMem (addrArg % 65536) (valArg % 256)]
     else pokeLoop (addrArg % 65536) stdin)

/-! ### `cli_dump` (src/cli.c lines 249-288)

    uint8_t buf[16];
    uint8_t buflen = 16;
    uint32_t i = start;
    while (i <= end) {
        printf_P(PSTR("%04X   "), i);
        read_mem(i, buf, buflen);            // or tms_read; always 16 bytes
        for (j = 0; j < buflen; j++) { ...print hex... }
        for (j = 0; j < buflen; j++, i++) { ...print ascii... }
    }

`buflen` is fixed at 16 and `i` is 32-bit, so each loop iteration reads
and displays exactly one whole 16-byte row starting at `i`, and `i`
advances by 16.  We model the list of row start addresses; each row `r`
stands for a read and display of the 16 bytes at `[r, r+15]`. -/
def dumpRows : Nat → Nat → Nat → List Nat
  | 0, _, _ => []
  | fuel + 1, i, e => if i ≤ e then i :: dumpRows fuel (i + 16) e else []

/-- `cli_dump` for a start/end pair: 4096 rows of fuel cover the whole
16-bit address space, so the fuel never runs out for `e ≤ 0xffff`. -/
def cli_dump (s e : Nat) : List Nat :=
  dumpRows 4096 s e

/-! ## Helper lemmas -/

/-- List.set keeps membership within the original list or the new value. -/
theorem mem_applyOp_set {reg : List DebugRange} {t : Nat} {b r : DebugRange}
    (h : r ∈ reg.set t b) : r ∈ reg ∨ r = b :=
  List.mem_or_eq_of_mem_set h

/-- One break/watch invocation preserves the registry invariant, provided
the invocation supplies a well-ordered range. -/
theorem applyOp_preserves_inv {reg : List DebugRange} {op : BWOp}
    (hreg : ∀ r ∈ reg, rangeInvB r = true) (hop : opOkB op = true) :
    ∀ r ∈ applyOp reg op, rangeInvB r = true := by
  intro r hr
  cases op with
  | status => exact hreg r hr
  | offAll =>
      simp only [applyOp, List.mem_map] at hr
      obtain ⟨_, _, rfl⟩ := hr
      decide
  | setFull t =>
      simp only [applyOp] at hr
      split at hr
      · rcases mem_applyOp_set hr with h | rfl
        · exact hreg r h
        · decide
      · exact hreg r hr
  | offOne t =>
      simp only [applyOp] at hr
      split at hr
      · rcases mem_applyOp_set hr with h | rfl
        · exact hreg r h
        · decide
      · exact hreg r hr
  | setOne t s =>
      simp only [applyOp] at hr
      split at hr
      · rcases mem_applyOp_set hr with h | rfl
        · exact hreg r h
        · simp [rangeInvB]
      · exact hreg r hr
  | setRange t s e =>
      simp only [applyOp] at hr
      split at hr
      · rcases mem_applyOp_set hr with h | rfl
        · exact hreg r h
        · simp only [opOkB, decide_eq_true_eq] at hop
          simp [rangeInvB, hop]
      · exact hreg r hr

/-- Byte count of a trace starting with a write to the counted target. -/
theorem chunkBytesTo_cons (t : Target) (a n : Nat) (l : List (Target × Nat × Nat)) :
    chunkBytesTo t ((t, a, n) :: l) = n + chunkBytesTo t l := by
  simp [chunkBytesTo]

/-- The fill chunk loop finishes within any fuel budget exceeding the
(16-bit wrapped) range length divided by 256, issues at least one write,
and delivers exactly `((e - s) mod 2^16) + 1` bytes to the target the
command selected. -/
theorem fillChunksF_spec :
    ∀ (fuel : Nat) (tms : Bool) (s e : Nat), s < 65536 → e < 65536 →
      (e + 65536 - s) % 65536 < 256 * fuel →
      ∃ l, fillChunksF fuel tms s e = some l ∧ l ≠ [] ∧
        chunkBytesTo (fillTarget tms) l = (e + 65536 - s) % 65536 + 1 := by
  intro fuel
  induction fuel with
  | zero => intro tms s e _ _ h; omega
  | succ n ih =>
      intro tms s e hs he hfuel
      by_cases hgt : (e + 65536 - s) % 65536 > 256
      · have hs' : (s + 256) % 65536 < 65536 := Nat.mod_lt _ (by omega)
        have hd' : (e + 65536 - (s + 256) % 65536) % 65536
            = (e + 65536 - s) % 65536 - 256 := by omega
        have hfuel' : (e + 65536 - (s + 256) % 65536) % 65536 < 256 * n := by
          omega
        obtain ⟨l, hl, hne, hsum⟩ := ih tms ((s + 256) % 65536) e hs' he hfuel'
        refine ⟨(fillTarget tms, s, 256) :: l, ?_, by simp, ?_⟩
        · simp [fillChunksF, hgt, hl]
        · rw [chunkBytesTo_cons, hsum, hd']
          omega
      · refine ⟨fillFinal tms s ((e + 65536 - s) % 65536 + 1), ?_, ?_, ?_⟩
        · simp [fillChunksF, hgt]
        · cases tms <;> simp [fillFinal]
        · cases tms <;> simp [fillFinal, fillTarget, chunkBytesTo]

/-- The baud-search loop finishes within any fuel budget covering the
remaining divisor values. -/
theorem baudLoopF_some :
    ∀ (fuel clock r u : Nat), u < 65536 → 65536 - u ≤ fuel →
      ∃ p, baudLoopF fuel clock r u = some p := by
  intro fuel
  induction fuel with
  | zero => intro clock r u hu hf; omega
  | succ n ih =>
      intro clock r u hu hf
      by_cases h1 : clock / (16 * (u + 1)) ≤ r
      · exact ⟨(u, clock / (16 * (u + 1))), by simp [baudLoopF, h1]⟩
      · by_cases h2 : (u + 1) % 65536 = 0
        · exact ⟨((u + 1) % 65536, clock / (16 * (u + 1))),
            by simp [baudLoopF, h1, h2]⟩
        · have hu' : u + 1 < 65536 := by omega
          obtain ⟨p, hp⟩ := ih clock r (u + 1) hu' (by omega)
          exact ⟨p, by simp [baudLoopF, h1, h2, hp]⟩

/-- If the baud search returns a rate within the request, the rate is the
one computed from the returned divisor, and that divisor is the first one
(at or after the loop entry) whose rate does not exceed the request. -/
theorem baudLoopF_found :
    ∀ (fuel clock r u d a : Nat), u < 65536 →
      baudLoopF fuel clock r u = some (d, a) → a ≤ r →
      a = clock / (16 * (d + 1)) ∧ u ≤ d ∧ d < 65536 ∧
        ∀ x, u ≤ x → x < d → r < clock / (16 * (x + 1)) := by
  intro fuel
  induction fuel with
  | zero => intro clock r u d a _ h; simp [baudLoopF] at h
  | succ n ih =>
      intro clock r u d a hu h ha
      rw [baudLoopF] at h
      split_ifs at h with h1 h2
      · simp only [Option.some.injEq, Prod.mk.injEq] at h
        obtain ⟨rfl, rfl⟩ := h
        exact ⟨rfl, Nat.le_refl u, hu, fun x hx1 hx2 => absurd hx1 (by omega)⟩
      · simp only [Option.some.injEq, Prod.mk.injEq] at h
        obtain ⟨rfl, rfl⟩ := h
        exact absurd ha h1
      · have hu' : u + 1 < 65536 := by omega
        obtain ⟨hval, hle, hlt, hfirst⟩ := ih clock r (u + 1) d a hu' h ha
        refine ⟨hval, by omega, hlt, fun x hx1 hx2 => ?_⟩
        rcases Nat.eq_or_lt_of_le hx1 with rfl | hgt
        · omega
        · exact hfirst x (by omega) hx2

/-- If the baud search returns a rate exceeding the request, the divisor
register overflowed: the divisor wrapped to 0 while the reported rate is
the one computed for the largest divisor, `clock / (16 * 2^16)`. -/
theorem baudLoopF_overflow :
    ∀ (fuel clock r u d a : Nat), u < 65536 →
      baudLoopF fuel clock r u = some (d, a) → r < a →
      d = 0 ∧ a = clock / (16 * 65536) := by
  intro fuel
  induction fuel with
  | zero => intro clock r u d a _ h; simp [baudLoopF] at h
  | succ n ih =>
      intro clock r u d a hu h ha
      rw [baudLoopF] at h
      split_ifs at h with h1 h2
      · simp only [Option.some.injEq, Prod.mk.injEq] at h
        obtain ⟨rfl, rfl⟩ := h
        exact absurd h1 (by omega)
      · simp only [Option.some.injEq, Prod.mk.injEq] at h
        obtain ⟨rfl, rfl⟩ := h
        have h65 : u + 1 = 65536 := by omega
        exact ⟨h2, by rw [h65]⟩
      · exact ih clock r (u + 1) d a (by omega) h ha

/-- With the 20 MHz clock, every divisor value in range yields a rate of
at least 19 baud. -/
theorem baud_rate_ge_19 : ∀ x, x < 65536 → 19 ≤ 20000000 / (16 * (x + 1)) := by
  intro x hx
  have h1 : 16 * (x + 1) ≤ 1048576 := by omega
  have h2 : 20000000 / 1048576 ≤ 20000000 / (16 * (x + 1)) :=
    Nat.div_le_div_left h1 (by omega)
  omega

/-- If the loop guard fails, the dump loop emits no rows. -/
theorem dumpRows_nil (fuel i e : Nat) (h : ¬ i ≤ e) : dumpRows fuel i e = [] := by
  cases fuel with
  | zero => rfl
  | succ n => rw [dumpRows, if_neg h]

/-- With enough fuel, the dump loop emits rows `start, start+16, ...`,
the last of which starts at or before `end` and covers it. -/
theorem dumpRows_last :
    ∀ (fuel s e : Nat), s ≤ e → e + 1 - s ≤ 16 * fuel →
      ∃ r, (dumpRows fuel s e).getLast? = some r ∧ r ≤ e ∧ e < r + 16 ∧
        ∀ row ∈ dumpRows fuel s e, ∃ k, row = s + 16 * k := by
  intro fuel
  induction fuel with
  | zero => intro s e hse hf; omega
  | succ n ih =>
      intro s e hse hf
      rw [dumpRows, if_pos hse]
      by_cases h16 : s + 16 ≤ e
      · obtain ⟨r, hlast, hre, hlt, hrows⟩ := ih (s + 16) e h16 (by omega)
        refine ⟨r, ?_, hre, hlt, ?_⟩
        · have hmem : r ∈ (dumpRows n (s + 16) e).getLast? :=
            Option.mem_def.mpr hlast
          exact Option.mem_def.mp (List.mem_getLast?_cons hmem)
        · intro row hrow
          rcases List.mem_cons.mp hrow with rfl | hrest
          · exact ⟨0, by omega⟩
          · obtain ⟨k, hk⟩ := hrows row hrest
            exact ⟨k + 1, by omega⟩
      · rw [dumpRows_nil n (s + 16) e h16]
        refine ⟨s, rfl, hse, by omega, ?_⟩
        intro row hrow
        rw [List.mem_singleton] at hrow
        exact ⟨0, by omega⟩

/-! ## Claim theorems -/

/-- C1: for a fill over `[0, 0xff]` with the video-memory target
(`tmsfill 0 ff aa`), the final (and only) chunk is issued as TWO write
calls — one to video memory and, because the `write_mem` on line 518 is
not guarded by the `if (tms)`, one to bus memory — contradicting the
claim that bus memory is left unchanged. -/
theorem c1_tmsfill_final_chunk_dual_write :
    fillChunksF 1 true 0 255 =
      some [(Target.video, 0, 256), (Target.bus, 0, 256)] := by
  decide

/-- C2: `verify_mem` re-reads the target from `start` on every chunk
(line 471 uses `start`, not `i`).  With target and reference holding
identical bytes (`pageByte` = `pageByteRef` at every address), verifying
`[0, 0x103]` should report 0 mismatches but reports 4: the second chunk
compares `src[0x100..0x103]` against the re-read first chunk.  On a
single-chunk range such as `[0x1000, 0x10ff]` the code behaves as
claimed (0 mismatches against an equal reference, 256 against 0xBB). -/
theorem c2_verify_mem_rereads_first_chunk :
    verify_mem 10 pageByte pageByteRef 0 259 = some 4 ∧
    (∀ a, a ≤ 259 → pageByte a = pageByteRef a) ∧
    verify_mem 10 (fun _ => 0xAA) (fun _ => 0xAA) 4096 4351 = some 0 ∧
    verify_mem 10 (fun _ => 0xAA) (fun _ => 0xBB) 4096 4351 = some 256 := by
  refine ⟨by decide, fun a _ => rfl, by decide, by decide⟩

/-- Auxiliary: from the state `start = 0, end = 0xffff, len = 0` the
savebin loop never finishes: `end - start + 1` wraps to 0, so `len`
stays 0 and `start` never advances. -/
theorem savebin_stuck_len0 : ∀ fuel, savebinF fuel 0 65535 0 = none := by
  intro fuel
  induction fuel with
  | zero => rfl
  | succ n ih => simp [savebinF, ih]

/-- Auxiliary: from the state `start = 0, end = 0xffff, len = 256` the
savebin loop never finishes: `(end - start + 1) % 65536 = 0 < 256`
shrinks `len` to 0 and the loop reaches the stuck state above. -/
theorem savebin_stuck_start0 : ∀ fuel, savebinF fuel 0 65535 256 = none := by
  intro fuel
  cases fuel with
  | zero => rfl
  | succ n => simp [savebinF, savebin_stuck_len0 n]

/-- C3: the savebin loop does not terminate for `start = 0xff00,
end = 0xffff` (a range with `start <= end`): after writing the first
256-byte chunk, `start += 256` wraps to 0, the loop re-enters, `len`
shrinks to `(0xffff - 0 + 1) % 65536 = 0`, and the loop spins forever
writing empty chunks — no fuel budget makes it finish. -/
theorem c3_savebin_does_not_terminate :
    ∀ fuel, savebinF fuel 0xff00 0xffff 256 = none := by
  intro fuel
  cases fuel with
  | zero => rfl
  | succ n => simp [savebinF, savebin_stuck_start0 n]

/-- C4 counterexample: a fill invoked with `start = 0xffff > end = 0`
is not a no-op: the 16-bit subtraction `end - start` wraps to 1, so the
command issues a 2-byte write at `0xffff` (wrapping into address 0)
instead of issuing no writes. -/
theorem c4_fill_start_gt_end_writes :
    fillChunksF 1 false 0xffff 0 = some [(Target.bus, 0xffff, 2)] := by
  decide

/-- C4 (amended): for `start > end`, savebin is indeed a zero-length
no-op (the loop guard fails at once, no write is issued), but fill is
not: its loop treats `end - start` modulo 2^16, always issues at least
one write, and delivers `((end - start) mod 2^16) + 1` bytes to the
selected target, wrapping around the address space. -/
theorem c4_start_gt_end_amended (tms : Bool) (s e : Nat)
    (hs : s < 65536) (he : e < 65536) (hlt : e < s) :
    savebinF 1 s e 256 = some [] ∧
    ∃ l, fillChunksF 257 tms s e = some l ∧ l ≠ [] ∧
      chunkBytesTo (fillTarget tms) l = (e + 65536 - s) % 65536 + 1 := by
  constructor
  · simp [savebinF, Nat.not_le.mpr hlt]
  · exact fillChunksF_spec 257 tms s e hs he (by omega)

/-- C4 witness: the amended theorem at `start = 0xffff, end = 0` for the
bus-memory fill: savebin writes nothing, fill writes 2 bytes. -/
theorem c4_start_gt_end_amended_witness :
    0xffff < 65536 ∧ 0 < 65536 ∧ 0 < 0xffff ∧
    (savebinF 1 0xffff 0 256 = some [] ∧
      ∃ l, fillChunksF 257 false 0xffff 0 = some l ∧ l ≠ [] ∧
        chunkBytesTo (fillTarget false) l = (0 + 65536 - 0xffff) % 65536 + 1) :=
  ⟨by decide, by decide, by decide,
    c4_start_gt_end_amended false 0xffff 0 (by decide) (by decide) (by decide)⟩

/-- C5 counterexample: the set operation does not validate its range.
Starting from a registry with a single disabled class, the command
`break <type0> 200 100` (a set with an end address below the start)
stores the inverted pair `(0x200, 0x100)`, which is neither an enabled
range with `start <= end` nor the disabled sentinel. -/
theorem c5_breakwatch_inverted_pair :
    applyOps [rangeOff] [BWOp.setRange 0 0x200 0x100] = [⟨0x200, 0x100⟩] ∧
    rangeInvB ⟨0x200, 0x100⟩ = false := by
  exact ⟨by decide, by decide⟩

/-- C5 (amended): after any sequence of registry operations in which
every explicit two-address set supplies `start <= end`, every range in
the registry is either an enabled range with `start <= end` or exactly
the sentinel pair `(0xffff, 0)`; the code never manufactures an inverted
pair on its own, but it stores a user-supplied inverted pair unchecked. -/
theorem c5_breakwatch_invariant_amended (reg : List DebugRange) (ops : List BWOp)
    (hreg : ∀ r ∈ reg, rangeInvB r = true) (hops : ∀ op ∈ ops, opOkB op = true) :
    ∀ r ∈ applyOps reg ops, rangeInvB r = true := by
  induction ops generalizing reg with
  | nil => simpa [applyOps] using hreg
  | cons op rest ih =>
      have h1 : ∀ r ∈ applyOp reg op, rangeInvB r = true :=
        applyOp_preserves_inv hreg (hops op (List.mem_cons_self op rest))
      have h2 : ∀ o ∈ rest, opOkB o = true := fun o ho =>
        hops o (List.mem_cons_of_mem op ho)
      simpa [applyOps] using ih (applyOp reg op) h1 h2

/-- C5 witness: a concrete run of the amended theorem over a two-class
registry and a sequence exercising every operation form. -/
theorem c5_breakwatch_invariant_amended_witness :
    (∀ r ∈ [rangeOff, rangeOff], rangeInvB r = true) ∧
    (∀ op ∈ [BWOp.setFull 0, BWOp.setRange 1 0x100 0x1ff, BWOp.setOne 0 0x42,
             BWOp.offOne 1, BWOp.status, BWOp.offAll],
      opOkB op = true) ∧
    ∀ r ∈ applyOps [rangeOff, rangeOff]
            [BWOp.setFull 0, BWOp.setRange 1 0x100 0x1ff, BWOp.setOne 0 0x42,
             BWOp.offOne 1, BWOp.status, BWOp.offAll],
      rangeInvB r = true :=
  ⟨by decide, by decide,
    c5_breakwatch_invariant_amended _ _ (by decide) (by decide)⟩

/-- C7 counterexample: for a requested rate of 0 (more generally, below
19) no divisor satisfies the search, the 16-bit divisor register
overflows, and the reported pair is divisor 0 with actual rate 19 — but
19 is not `clock / (16 * (0 + 1)) = 1250000`, so the reported divisor
and actual rate do not correspond. -/
theorem c7_baud_overflow_mismatch :
    cli_baud 0 = some (0, 19) ∧ (19 : Nat) ≠ 20000000 / (16 * (0 + 1)) := by
  refine ⟨?_, by norm_num⟩
  obtain ⟨⟨d, a⟩, hp⟩ := baudLoopF_some 65536 20000000 0 0 (by omega) (by omega)
  by_cases ha : a = 0
  · exfalso
    obtain ⟨heq, -, hd, -⟩ :=
      baudLoopF_found 65536 20000000 0 0 d a (by omega) hp (by omega)
    have := baud_rate_ge_19 d hd
    omega
  · obtain ⟨hd0, ha19⟩ :=
      baudLoopF_overflow 65536 20000000 0 0 d a (by omega) hp (by omega)
    have hval : (20000000 : Nat) / (16 * 65536) = 19 := by norm_num
    show baudLoopF 65536 20000000 0 0 = some (0, 19)
    rw [hp, hd0, ha19, hval]

/-- C7 (amended): for every requested rate the divisor search terminates
within the 65536 possible divisor values, and either it finds the first
divisor whose actual rate `clock / (16 * (d + 1))` does not exceed the
request and reports that corresponding pair, or — when the request is
below every achievable rate — the divisor register overflows: the
reported actual rate is the boundary value `clock / (16 * 2^16)` but the
reported divisor has wrapped to 0, so on overflow the divisor and the
rate do NOT correspond.  With clock 20,000,000 and any requested rate of
at least 19 (in particular 115200) the found case applies and the
reported actual rate is at most the request. -/
theorem c7_baud_search_amended (requested : Nat) :
    ∃ d a, cli_baud requested = some (d, a) ∧
      ((a ≤ requested ∧ a = 20000000 / (16 * (d + 1)) ∧
          ∀ x, x < d → requested < 20000000 / (16 * (x + 1))) ∨
        (requested < a ∧ d = 0 ∧ a = 20000000 / (16 * 65536))) := by
  obtain ⟨⟨d, a⟩, hp⟩ := baudLoopF_some 65536 20000000 requested 0 (by omega) (by omega)
  refine ⟨d, a, hp, ?_⟩
  by_cases hle : a ≤ requested
  · obtain ⟨h1, -, -, h4⟩ :=
      baudLoopF_found 65536 20000000 requested 0 d a (by omega) hp hle
    exact Or.inl ⟨hle, h1, fun x hx => h4 x (Nat.zero_le x) hx⟩
  · obtain ⟨h1, h2⟩ :=
      baudLoopF_overflow 65536 20000000 requested 0 d a (by omega) hp (by omega)
    exact Or.inr ⟨by omega, h1, h2⟩

/-- C7 witness: the amended theorem at the requested rate 115200. -/
theorem c7_baud_search_amended_witness :
    ∃ d a, cli_baud 115200 = some (d, a) ∧
      ((a ≤ 115200 ∧ a = 20000000 / (16 * (d + 1)) ∧
          ∀ x, x < d → 115200 < 20000000 / (16 * (x + 1))) ∨
        (115200 < a ∧ d = 0 ∧ a = 20000000 / (16 * 65536))) :=
  c7_baud_search_amended 115200

/-- C6: a fill over `[0, 0x100]` (length 257) issues a SINGLE write of
257 bytes — the loop condition `end - start > 256` is false at 256, so
no full 256-byte chunk is emitted and the "final" chunk exceeds the
256-byte pattern buffer by one byte — instead of the claimed full
256-byte chunk followed by a 1-byte final chunk. -/
theorem c6_fill_emits_257_byte_chunk :
    fillChunksF 1 false 0 256 = some [(Target.bus, 0, 257)] ∧ 257 > 256 := by
  exact ⟨by decide, by decide⟩

/-- C8 counterexample: a user-requested `do autoexec.z8c` whose open
fails with "no file" is NOT reported: the suppression in `cli_exec`
(line 737) keys on the file name and error kind only, not on whether the
call is the bootstrap attempt. -/
theorem c8_do_autoexec_not_reported :
    doReportsOpenError ["do", "autoexec.z8c"] FResult.noFile = false := by
  decide

/-- C8 (amended): an open failure is reported exactly when it is not the
pair (file-not-found, bootstrap file name): the `do` command inherits the
same rule for its file argument, so every failure for a user-requested
file is reported EXCEPT a file-not-found of the file named
`autoexec.z8c`, which is suppressed no matter who requested it. -/
theorem c8_open_error_reporting_amended (cmd f : String) (rest : List String)
    (fr : FResult) :
    doReportsOpenError (cmd :: f :: rest) fr = execReportsOpenError f fr ∧
      (execReportsOpenError f fr = true ↔
        ¬(fr = FResult.noFile ∧ f = AUTOEXEC)) := by
  refine ⟨rfl, ?_⟩
  simp [execReportsOpenError]
  tauto

/-- C8 witness: the amended theorem at a user-requested ordinary file
name failing with "no file". -/
theorem c8_open_error_reporting_amended_witness :
    doReportsOpenError ["do", "test.z8c"] FResult.noFile =
        execReportsOpenError "test.z8c" FResult.noFile ∧
      (execReportsOpenError "test.z8c" FResult.noFile = true ↔
        ¬(FResult.noFile = FResult.noFile ∧ "test.z8c" = AUTOEXEC)) :=
  c8_open_error_reporting_amended "do" "test.z8c" [] FResult.noFile

/-- C9: invoked with a missing address argument (`argc = 1`), poke
prints the usage message but is NOT aborted: the usage branch lacks a
`return`, so the handler parses the absent `argv[1]` (whatever value
that undefined parse yields) and enters the interactive loop, whose
first action reads a byte of memory — rather than leaving memory
untouched. -/
theorem c9_poke_missing_args_not_aborted :
    ∀ addrArg : Nat,
      cli_poke 1 addrArg 0 [] =
        [PokeEvent.printUsage, PokeEvent.readMem (addrArg % 65536)] ∧
      cli_poke 1 addrArg 0 [] ≠ [PokeEvent.printUsage] := by
  intro addrArg
  refine ⟨?_, ?_⟩ <;> simp [cli_poke, pokeLoop]

/-- C10: every row the dump command reads and displays starts at
`start + 16 * k`; the final row starts at or before `end` and covers
`[r, r+15] ⊇ {end}`; whenever the requested length `end - start + 1` is
not a multiple of 16, between 1 and 15 bytes beyond `end` are read and
included in the displayed final row. -/
theorem c10_dump_reads_whole_rows (s e : Nat) (hse : s ≤ e) (he : e ≤ 65535) :
    ∃ r, (cli_dump s e).getLast? = some r ∧
      (∀ row ∈ cli_dump s e, ∃ k, row = s + 16 * k) ∧
      r ≤ e ∧ e ≤ r + 15 ∧
      ((e + 1 - s) % 16 ≠ 0 → 1 ≤ r + 15 - e ∧ r + 15 - e ≤ 15) := by
  obtain ⟨r, hlast, hre, hlt, hrows⟩ := dumpRows_last 4096 s e hse (by omega)
  have hrmem : r ∈ dumpRows 4096 s e := by
    have := List.mem_getLast?_eq_getLast (Option.mem_def.mpr hlast)
    obtain ⟨hne, rfl⟩ := this
    exact List.getLast_mem hne
  obtain ⟨k, hk⟩ := hrows r hrmem
  exact ⟨r, hlast, hrows, hre, by omega, fun hmod => by omega⟩

/-- C10 witness: dumping `[0, 10]` (11 bytes, not a multiple of 16)
reads one whole 16-byte row, 5 bytes beyond the requested end. -/
theorem c10_dump_reads_whole_rows_witness :
    ∃ r, (cli_dump 0 10).getLast? = some r ∧
      (∀ row ∈ cli_dump 0 10, ∃ k, row = 0 + 16 * k) ∧
      r ≤ 10 ∧ 10 ≤ r + 15 ∧
      ((10 + 1 - 0) % 16 ≠ 0 → 1 ≤ r + 15 - 10 ∧ r + 15 - 10 ≤ 15) :=
  c10_dump_reads_whole_rows 0 10 (by decide) (by decide)
